import Mathlib

/-!
Shallow embedding of the hypia image augmentation library
(src/hypia/functionals.py) and a verification of the frozen claims about
its specification. Pixel samples are modelled as exact rationals; numpy
arrays with three axes become total sampling functions together with the
three axis extents. Fallible Python code is modelled with Except over an
error type mirroring the Python exception classes that can occur.
-/

namespace Hypia

/-- An image: three physical axes with extents d0, d1, d2 and a total pixel
sampling function. Only values at indices below the extents are meaningful;
image equality up to those indices is the relation imEq below. -/
@[ext]
structure Image where
  d0 : Nat
  d1 : Nat
  d2 : Nat
  data : Nat → Nat → Nat → ℚ

/-- Observational equality of images: same shape and same samples at every
in-range index (this is what numpy array equality compares). -/
def imEq (a b : Image) : Prop :=
  a.d0 = b.d0 ∧ a.d1 = b.d1 ∧ a.d2 = b.d2 ∧
    ∀ i j k, i < a.d0 → j < a.d1 → k < a.d2 → a.data i j k = b.data i j k

/-- The channel_pos argument taken by every geometric operation. -/
inductive ChannelPos
  | first
  | last
deriving DecidableEq

/-- Python exception classes that the embedded code can raise. -/
inductive PyErr
  | indexError
  | attributeError
  | nameError
  | typeError
  | assertionError
  | valueError
deriving DecidableEq

/-- Embedding of np.moveaxis(img, 0, -1): the first axis becomes the last. -/
def moveToLast (img : Image) : Image :=
  { d0 := img.d1, d1 := img.d2, d2 := img.d0,
    data := fun i j k => img.data k i j }

/-- Embedding of np.moveaxis(img, -1, 0): the last axis becomes the first. -/
def moveToFirst (img : Image) : Image :=
  { d0 := img.d2, d1 := img.d0, d2 := img.d1,
    data := fun i j k => img.data j k i }

/-- Channel-Layout Adapter, entry direction: the conditional
`if channel_pos == "first": img = np.moveaxis(img, 0, -1)` that opens every
geometric operation in functionals.py. -/
def toCanon (img : Image) (p : ChannelPos) : Image :=
  match p with
  | .first => moveToLast img
  | .last => img

/-- Channel-Layout Adapter, exit direction: the conditional
`if channel_pos == "first": out = np.moveaxis(out, -1, 0)` that closes every
geometric operation in functionals.py. -/
def fromCanon (img : Image) (p : ChannelPos) : Image :=
  match p with
  | .first => moveToFirst img
  | .last => img

/-- The adapter sandwich shared by the fallible operations: move to the
canonical channels-last layout, run the body, restore the caller layout. -/
def withLayout (p : ChannelPos) (body : Image → Except PyErr Image)
    (img : Image) : Except PyErr Image :=
  Except.map (fun o => fromCanon o p) (body (toCanon img p))

/-- The adapter sandwich for the operations that cannot raise. -/
def withLayoutP (p : ChannelPos) (body : Image → Image) (img : Image) : Image :=
  fromCanon (body (toCanon img p)) p

/-- Extent of the channel axis at the position the caller requested. -/
def chanAxisLen (img : Image) (p : ChannelPos) : Nat :=
  match p with
  | .first => img.d0
  | .last => img.d2

/-- The two spatial extents (height, width) at the caller layout. -/
def spatialDims (img : Image) (p : ChannelPos) : Nat × Nat :=
  match p with
  | .first => (img.d1, img.d2)
  | .last => (img.d0, img.d1)

/-! External numerical primitives (scipy / scikit-image), which the spec
declares out of scope and consumes as library calls with documented
contracts. They are modelled concretely so every definition executes. -/

/-- Truncation toward zero, the semantics of assigning a float into an
integer numpy array. -/
def truncQ (q : ℚ) : Int :=
  if 0 ≤ q then ⌊q⌋ else -⌊-q⌋

/-- Nearest in-range index for a fractional source coordinate: round to
nearest and clamp into [0, d-1]. -/
def nearestIdx (d : Nat) (q : ℚ) : Nat :=
  (max 0 (min ((d : Int) - 1) ⌊q + 1/2⌋)).toNat

/-- Modelled from the spec: rational surrogate for the sine used by the
external affine builder (exact trigonometry is not rational); a truncated
Taylor series keeps every definition executable. No claim depends on the
numerical value. -/
def ratSin (x : ℚ) : ℚ := x - x ^ 3 / 6 + x ^ 5 / 120

/-- Modelled from the spec: rational surrogate for the cosine used by the
external affine builder, as for ratSin. -/
def ratCos (x : ℚ) : ℚ := 1 - x ^ 2 / 2 + x ^ 4 / 24

/-- Modelled from the spec: rational surrogate for pi, used only inside the
modelled external rotation primitive. -/
def ratPi : ℚ := 355 / 113

/-- A homogeneous affine transform with its last row fixed at (0, 0, 1),
matching both the matrices scikit-image AffineTransform builds and the
corrected matrix resize forces (lines 81-83 of functionals.py). Row 0 maps
to the x (column) coordinate, row 1 to the y (row) coordinate. -/
structure TForm where
  m00 : ℚ
  m01 : ℚ
  m02 : ℚ
  m10 : ℚ
  m11 : ℚ
  m12 : ℚ

/-- Modelled from the spec: inversion of the affine transform (the external
builder exposes tform.inverse). A singular matrix surfaces downstream as the
spec requires; here rational division by zero yields zero entries. -/
def TForm.inv (t : TForm) : TForm :=
  let det := t.m00 * t.m11 - t.m01 * t.m10
  { m00 := t.m11 / det, m01 := -t.m01 / det,
    m02 := (t.m01 * t.m12 - t.m11 * t.m02) / det,
    m10 := -t.m10 / det, m11 := t.m00 / det,
    m12 := (t.m10 * t.m02 - t.m00 * t.m12) / det }

/-- Modelled from the spec (section 4.2): the external affine builder
AffineTransform(scale, rotation, shear, translation), composing
scale, rotation, shear and translation with unset parameters defaulting to
the identity, per the documented matrix
[[sx cos t, -sy sin(t+b), Tx], [sx sin t, sy cos(t+b), Ty], [0,0,1]]. -/
def mkAffine (scale : Option (ℚ × ℚ)) (rot shr : Option ℚ)
    (translation : Option (ℚ × ℚ)) : TForm :=
  let s := scale.getD (1, 1)
  let t := rot.getD 0
  let b := shr.getD 0
  let tr := translation.getD (0, 0)
  { m00 := s.1 * ratCos t, m01 := -(s.2 * ratSin (t + b)), m02 := tr.1,
    m10 := s.1 * ratSin t, m11 := s.2 * ratCos (t + b), m12 := tr.2 }

/-- Modelled from the spec (section 6): the external inverse-coordinate warp
primitive. The output has exactly the requested shape and each output pixel
is a deterministic sample of the source through the given output-to-source
transform; sub-pixel spline interpolation is outside the embedded core, so
the sample is taken at the nearest in-range source pixel whatever the
requested order (preserve_range=True means values are passed through
unscaled, as here). The claims depend only on the shape contract and on
determinism. -/
def warp (img : Image) (t : TForm) (outShape : Nat × Nat × Nat)
    (order : Nat) : Image :=
  { d0 := outShape.1, d1 := outShape.2.1, d2 := outShape.2.2,
    data := fun i j k =>
      let x : ℚ := (j : ℚ)
      let y : ℚ := (i : ℚ)
      let sx := t.m00 * x + t.m01 * y + t.m02
      let sy := t.m10 * x + t.m11 * y + t.m12
      let _ := order
      img.data (nearestIdx img.d0 sy) (nearestIdx img.d1 sx) k }

/-- Modelled from the spec (section 6): the external separable Gaussian blur,
used only as the anti-aliasing pre-filter. Its contract is an output of the
same shape; the blur numerics are outside the embedded core, so the pixel
function is passed through. No claim depends on the blurred values. -/
def gaussianBlur (img : Image) (sigma : ℚ × ℚ × ℚ) : Image :=
  let _ := sigma
  img

/-- Modelled from the spec (section 6): the external N-dimensional
rotate-by-interpolation primitive scipy.ndimage.rotate, rotating within the
first two axes about the geometric centre. With reshape the canvas grows to
the bounding box of the rotated extent; the channel axis is untouched.
Sampling is the nearest-pixel surrogate, as for warp, with the rational trig
surrogates standing in for the exact trigonometry. -/
def rotateND (img : Image) (angleDeg : ℚ) (reshape : Bool) (order : Nat) : Image :=
  let t := angleDeg * ratPi / 180
  let co := ratCos t
  let si := ratSin t
  let h : ℚ := (img.d0 : ℚ)
  let w : ℚ := (img.d1 : ℚ)
  let newShape : Nat × Nat :=
    if reshape then ((⌈|h * co| + |w * si|⌉).toNat, (⌈|h * si| + |w * co|⌉).toNat)
    else (img.d0, img.d1)
  { d0 := newShape.1, d1 := newShape.2, d2 := img.d2,
    data := fun i j k =>
      let cy : ℚ := ((newShape.1 : ℚ) - 1) / 2
      let cx : ℚ := ((newShape.2 : ℚ) - 1) / 2
      let oy : ℚ := (h - 1) / 2
      let ox : ℚ := (w - 1) / 2
      let dy := (i : ℚ) - cy
      let dx := (j : ℚ) - cx
      let _ := order
      img.data (nearestIdx img.d0 (oy + (co * dy + si * dx)))
        (nearestIdx img.d1 (ox + (-si * dy + co * dx))) k }

/-- Conversion np.rad2deg, with the rational pi surrogate. -/
def rad2deg (q : ℚ) : ℚ := q * 180 / ratPi

/-! The Geometric Transform Set: the public operations of
src/hypia/functionals.py, each translated from its source body. -/

/-- A numpy-broadcastable mean or std argument of normalise: a scalar or a
vector broadcast along the last axis. -/
inductive Brd
  | scalar (v : ℚ)
  | vec (l : List ℚ)

/-- Whether numpy can broadcast this argument against a last axis of extent
d for an elementwise operation that keeps the image shape: a scalar always,
a vector when its length is 1 or equals d. -/
def Brd.bcastOK (b : Brd) (d : Nat) : Bool :=
  match b with
  | .scalar _ => true
  | .vec l => l.length == 1 || l.length == d

/-- The broadcast value of the argument at index k of the last axis. -/
def Brd.get (b : Brd) (k : Nat) : ℚ :=
  match b with
  | .scalar v => v
  | .vec l => if l.length = 1 then l.getD 0 0 else l.getD k 0

/-- normalise (functionals.py lines 5-26): norm_img = (img - mean) / std,
elementwise under numpy broadcasting; there is no channel_pos parameter, the
broadcast is always along the physical last axis. A non-broadcastable vector
is a numpy ValueError. -/
def normalise (img : Image) (mean std : Brd) : Except PyErr Image :=
  if mean.bcastOK img.d2 && std.bcastOK img.d2 then
    .ok { img with data := fun i j k => (img.data i j k - mean.get k) / std.get k }
  else .error .valueError

/-- The size argument of resize as Python sees it: its runtime type drives
the dispatch. arr is a numpy array, which is what rescale ends up passing. -/
inductive Size
  | int (n : Nat)
  | tup (l : List Nat)
  | lst (l : List Nat)
  | arr (l : List ℚ)

/-- The size dispatch of resize (functionals.py lines 54-59), including its
two slips: `type(size) == (tuple or list)` evaluates to `type(size) == tuple`
(so a list matches no branch and the later use of output_shape raises
NameError), and the 2-element branch reads `img.output_shape`, an attribute
numpy arrays do not have (AttributeError). c is the image already in
canonical layout, whose last extent is the channel count. -/
def sizeDispatch (c : Image) (size : Size) : Except PyErr (Nat × Nat × Nat) :=
  match size with
  | .int n => .ok (n, n, c.d2)
  | .tup l =>
      match l with
      | [_, _] => .error .attributeError
      | [a, b, ch] => .ok (a, b, ch)
      | _ => .error .nameError
  | .lst _ => .error .nameError
  | .arr _ => .error .nameError

/-- The transform resize builds (functionals.py lines 63-84): the factors per
axis, the three corner correspondences with the sub-pixel centre offset
src = factor * (dst + 0.5) - 0.5, stored into an integer array and hence
truncated toward zero (dst_corners = np.zeros_like(src_corners) keeps the int
dtype), the exact affine interpolation of those three points (the external
least-squares estimate, exact on three exact correspondences), and finally
the forced corrections params[2] = (0,0,1), params[0,1] = 0, params[1,0] = 0
that zero the off-diagonal terms. -/
def resizeTform (f0 f1 : ℚ) (outShape : Nat × Nat × Nat) : TForm :=
  let X0 : ℚ := ((truncQ (f1 * (0 + 1/2) - 1/2) : Int) : ℚ)
  let X1 : ℚ := ((truncQ (f1 * ((((outShape.2.1 : ℚ)) - 1) + 1/2) - 1/2) : Int) : ℚ)
  let Y0 : ℚ := ((truncQ (f0 * (0 + 1/2) - 1/2) : Int) : ℚ)
  let Y1 : ℚ := ((truncQ (f0 * ((((outShape.1 : ℚ)) - 1) + 1/2) - 1/2) : Int) : ℚ)
  { m00 := (X1 - X0) / ((outShape.2.1 : ℚ) - 1), m01 := 0, m02 := X0,
    m10 := 0, m11 := (Y1 - Y0) / ((outShape.1 : ℚ) - 1), m12 := Y0 }

/-- The canonical-layout body of resize once the output shape is known
(functionals.py lines 61-86): the channel-count assertion, the per-axis
factors, the optional anti-aliasing pre-blur with sigma max(0, (factor-1)/2),
and the warp with the corrected transform. -/
def resizeCanon (c : Image) (outShape : Nat × Nat × Nat) (order : Nat)
    (aa : Bool) : Except PyErr Image :=
  if c.d2 = outShape.2.2 then
    let f0 : ℚ := (c.d0 : ℚ) / (outShape.1 : ℚ)
    let f1 : ℚ := (c.d1 : ℚ) / (outShape.2.1 : ℚ)
    let f2 : ℚ := (c.d2 : ℚ) / (outShape.2.2 : ℚ)
    let c2 := if aa then
        gaussianBlur c (max 0 ((f0 - 1) / 2), max 0 ((f1 - 1) / 2), max 0 ((f2 - 1) / 2))
      else c
    .ok (warp c2 (resizeTform f0 f1 outShape) outShape order)
  else .error .assertionError

/-- resize (functionals.py lines 28-92): adapter sandwich around the size
dispatch and the canonical resize body. -/
def resize (img : Image) (size : Size) (order : Nat) (aa : Bool)
    (p : ChannelPos) : Except PyErr Image :=
  withLayout p (fun c =>
    match sizeDispatch c size with
    | .error e => .error e
    | .ok s => resizeCanon c s order aa) img

/-- The scale argument of rescale as Python sees it. -/
inductive Scale
  | flt (q : ℚ)
  | tup (l : List ℚ)
  | lst (l : List ℚ)
  | int (n : Nat)

/-- Python semantics of `scale * input_shape` at functionals.py line 121,
where input_shape is a tuple of ints: multiplying a tuple by a float raises
TypeError, as does multiplying it by another tuple or a list; only an int
multiplies a tuple, by sequence repetition. -/
def pyMulSeq (scale : Scale) (shape : List Nat) : Except PyErr (List ℚ) :=
  match scale with
  | .flt _ => .error .typeError
  | .tup _ => .error .typeError
  | .lst _ => .error .typeError
  | .int n => .ok (List.flatten (List.replicate n (shape.map (fun m => (m : ℚ)))))

/-- np.round, rounding half to even. -/
def npRound (q : ℚ) : ℚ :=
  let f : Int := ⌊q⌋
  let r : ℚ := q - (f : ℚ)
  if r < 1/2 then (f : ℚ)
  else if 1/2 < r then ((f + 1 : Int) : ℚ)
  else if f % 2 = 0 then (f : ℚ) else ((f + 1 : Int) : ℚ)

/-- rescale (functionals.py lines 94-126): reads the two spatial extents at
the caller layout (img.shape[1:] for channel-first, img.shape[:2] for
channel-last), evaluates np.round(scale * input_shape), and passes the
result to resize. The multiplication is Python sequence arithmetic, see
pyMulSeq; when it survives (int scale), what reaches resize is a numpy
array. -/
def rescale (img : Image) (scale : Scale) (order : Nat) (aa : Bool)
    (p : ChannelPos) : Except PyErr Image :=
  let inShape : List Nat :=
    match p with
    | .first => [img.d1, img.d2]
    | .last => [img.d0, img.d1]
  match pyMulSeq scale inShape with
  | .error e => .error e
  | .ok sz => resize img (.arr (sz.map npRound)) order aa p

/-- crop (functionals.py lines 129-162): adapter sandwich around the bounds
check (raised before any slicing) and the slice
img[tl0 : tl0 + height, tl1 : tl1 + width]. -/
def crop (img : Image) (tl : Nat × Nat) (height width : Nat)
    (p : ChannelPos) : Except PyErr Image :=
  withLayout p (fun c =>
    if tl.1 + height > c.d0 ∨ tl.2 + width > c.d1 then .error .indexError
    else .ok { d0 := height, d1 := width, d2 := c.d2,
               data := fun i j k => c.data (tl.1 + i) (tl.2 + j) k }) img

/-- hflip (functionals.py lines 164-189): adapter sandwich around np.fliplr,
which mirrors axis 1 (the canonical width axis). -/
def hflip (img : Image) (p : ChannelPos) : Image :=
  withLayoutP p (fun c =>
    { c with data := fun i j k => c.data i (c.d1 - 1 - j) k }) img

/-- vflip (functionals.py lines 191-216): adapter sandwich around np.flipud,
which mirrors axis 0 (the canonical height axis). -/
def vflip (img : Image) (p : ChannelPos) : Image :=
  withLayoutP p (fun c =>
    { c with data := fun i j k => c.data (c.d0 - 1 - i) j k }) img

/-- rotate (functionals.py lines 218-249): adapter sandwich around the
external rotation primitive, with the angle converted to degrees. -/
def rotate (img : Image) (angle : ℚ) (reshape : Bool) (order : Nat)
    (p : ChannelPos) : Image :=
  withLayoutP p (fun c => rotateND c (rad2deg angle) reshape order) img

/-- erase (functionals.py lines 251-284): adapter sandwich around the slice
assignment img[tl0 : tl0 + height, tl1 : tl1 + width] = val. There is no
bounds check; Python slice semantics silently clip the box to the array
extent, which the two in-range conjuncts on i and j mirror. The Python code
mutates the caller array through a view and returns it; the value-level
content of that contract is that the returned image holds exactly the
mutated data. -/
def erase (img : Image) (tl : Nat × Nat) (height width : Nat) (val : ℚ)
    (p : ChannelPos) : Image :=
  withLayoutP p (fun c =>
    { c with data := fun i j k =>
        if tl.1 ≤ i ∧ i < tl.1 + height ∧ i < c.d0 ∧
           tl.2 ≤ j ∧ j < tl.2 + width ∧ j < c.d1 then val
        else c.data i j k }) img

/-- shear (functionals.py lines 286-317): adapter sandwich around
warp(img, AffineTransform(shear=angle).inverse); without an output_shape the
warp keeps the input shape. -/
def shear (img : Image) (angle : ℚ) (order : Nat) (p : ChannelPos) : Image :=
  withLayoutP p (fun c =>
    warp c (mkAffine none none (some angle) none).inv (c.d0, c.d1, c.d2) order) img

/-- affine_transform (functionals.py lines 319-356): adapter sandwich around
warp(img, AffineTransform(scale, rotation, shear, translation).inverse),
keeping the input shape. -/
def affineTransform (img : Image) (scales : Option (ℚ × ℚ))
    (rot shr : Option ℚ) (translate : Option (ℚ × ℚ)) (order : Nat)
    (p : ChannelPos) : Image :=
  withLayoutP p (fun c =>
    warp c (mkAffine scales rot shr translate).inv (c.d0, c.d1, c.d2) order) img

/-- zoom (functionals.py lines 358-391): adapter sandwich around a crop at
channel_pos="last" followed by a resize back to the canonical full shape
(size=img.shape of the canonical image, a 3-tuple) at channel_pos="last",
forwarding the resize keyword arguments. -/
def zoom (img : Image) (tl : Nat × Nat) (height width : Nat)
    (p : ChannelPos) (order : Nat) (aa : Bool) : Except PyErr Image :=
  withLayout p (fun c =>
    match crop c tl height width .last with
    | .error e => .error e
    | .ok zoomed => resize zoomed (.tup [c.d0, c.d1, c.d2]) order aa .last) img

/-- stretch (functionals.py lines 393-426): adapter sandwich around a shear
at channel_pos="last" followed by a resize back to the canonical full shape
(size=img.shape of the canonical image, a 3-tuple) at channel_pos="last",
with the same interpolation order and anti-aliasing flags. -/
def stretch (img : Image) (angle : ℚ) (order : Nat) (aa : Bool)
    (p : ChannelPos) : Except PyErr Image :=
  withLayout p (fun c =>
    resize (shear c angle order .last) (.tup [c.d0, c.d1, c.d2]) order aa .last) img

/-- One public operation of the Geometric Transform Set together with its
non-image, non-layout arguments. -/
inductive Op
  | normaliseOp (mean std : Brd)
  | resizeOp (size : Size) (order : Nat) (aa : Bool)
  | rescaleOp (scale : Scale) (order : Nat) (aa : Bool)
  | cropOp (tl : Nat × Nat) (height width : Nat)
  | hflipOp
  | vflipOp
  | rotateOp (angle : ℚ) (reshape : Bool) (order : Nat)
  | eraseOp (tl : Nat × Nat) (height width : Nat) (val : ℚ)
  | shearOp (angle : ℚ) (order : Nat)
  | affineOp (scales : Option (ℚ × ℚ)) (rot shr : Option ℚ)
      (translate : Option (ℚ × ℚ)) (order : Nat)
  | zoomOp (tl : Nat × Nat) (height width : Nat) (order : Nat) (aa : Bool)
  | stretchOp (angle : ℚ) (order : Nat) (aa : Bool)

/-- Whether the operation has a channel_pos parameter in the source; only
normalise lacks one (it is purely elementwise). -/
def Op.takesChannelPos : Op → Bool
  | .normaliseOp _ _ => false
  | _ => true

/-- Invoke a public operation on an image at a channel layout; operations
that cannot raise are wrapped in ok. -/
def applyOp (o : Op) (img : Image) (p : ChannelPos) : Except PyErr Image :=
  match o with
  | .normaliseOp mean std => normalise img mean std
  | .resizeOp size order aa => resize img size order aa p
  | .rescaleOp scale order aa => rescale img scale order aa p
  | .cropOp tl height width => crop img tl height width p
  | .hflipOp => .ok (hflip img p)
  | .vflipOp => .ok (vflip img p)
  | .rotateOp angle reshape order => .ok (rotate img angle reshape order p)
  | .eraseOp tl height width val => .ok (erase img tl height width val p)
  | .shearOp angle order => .ok (shear img angle order p)
  | .affineOp scales rot shr translate order =>
      .ok (affineTransform img scales rot shr translate order p)
  | .zoomOp tl height width order aa => zoom img tl height width p order aa
  | .stretchOp angle order aa => stretch img angle order aa p

/-- A concrete 3-channel 10 by 10 channel-first test image with distinct
sample values, used by the witness theorems. -/
def testImg : Image :=
  { d0 := 3, d1 := 10, d2 := 10,
    data := fun i j k => (i : ℚ) * 100 + (j : ℚ) * 10 + (k : ℚ) }

/-! Helper lemmas about the Channel-Layout Adapter. -/

/-- Moving the first axis last and back is the identity. -/
theorem moveToFirst_moveToLast (img : Image) :
    moveToFirst (moveToLast img) = img := rfl

/-- Moving the last axis first and back is the identity. -/
theorem moveToLast_moveToFirst (img : Image) :
    moveToLast (moveToFirst img) = img := rfl

/-- The adapter round trip is the identity at either layout. -/
theorem toCanon_fromCanon (img : Image) (p : ChannelPos) :
    toCanon (fromCanon img p) p = img := by
  cases p <;> rfl

/-- The adapter round trip in the other direction is also the identity. -/
theorem fromCanon_toCanon (img : Image) (p : ChannelPos) :
    fromCanon (toCanon img p) p = img := by
  cases p <;> rfl

/-- The canonical channel extent is the channel extent the caller sees. -/
theorem chanAxisLen_toCanon (img : Image) (p : ChannelPos) :
    (toCanon img p).d2 = chanAxisLen img p := by
  cases p <;> rfl

/-- The channel-first run of a fallible sandwiched operation is the
channels-last run on the moved image, moved back. -/
theorem withLayout_first (body : Image → Except PyErr Image) (img : Image) :
    withLayout .first body img =
      Except.map moveToFirst (withLayout .last body (moveToLast img)) := by
  unfold withLayout
  have h : toCanon (moveToLast img) ChannelPos.last = toCanon img ChannelPos.first := rfl
  rw [h]
  cases body (toCanon img ChannelPos.first) <;> rfl

/-- The channel-first run of an infallible sandwiched operation is the
channels-last run on the moved image, moved back. -/
theorem withLayoutP_first (body : Image → Image) (img : Image) :
    withLayoutP .first body img =
      moveToFirst (withLayoutP .last body (moveToLast img)) := rfl

@[simp] theorem toCanon_first (img : Image) : toCanon img .first = moveToLast img := rfl

@[simp] theorem toCanon_last (img : Image) : toCanon img .last = img := rfl

@[simp] theorem fromCanon_first (img : Image) : fromCanon img .first = moveToFirst img := rfl

@[simp] theorem fromCanon_last (img : Image) : fromCanon img .last = img := rfl

@[simp] theorem moveToLast_moveToFirst_simp (img : Image) :
    moveToLast (moveToFirst img) = img := rfl

@[simp] theorem moveToFirst_moveToLast_simp (img : Image) :
    moveToFirst (moveToLast img) = img := rfl

/-- Mapping the trivial channels-last restore over a result changes nothing. -/
theorem map_fromCanon_last (x : Except PyErr Image) :
    Except.map (fun o => fromCanon o ChannelPos.last) x = x := by
  cases x <;> rfl

/-- The channel extent of a restored image at the caller layout is the
canonical channel extent. -/
theorem chanAxisLen_fromCanon (img : Image) (p : ChannelPos) :
    chanAxisLen (fromCanon img p) p = img.d2 := by
  cases p <;> rfl

/-- A sandwiched fallible operation whose body preserves the canonical
channel extent preserves the channel extent the caller sees. -/
theorem withLayout_chan (body : Image → Except PyErr Image) (img : Image)
    (p : ChannelPos) (hbody : ∀ c w, body c = .ok w → w.d2 = c.d2) :
    ∀ out, withLayout p body img = .ok out →
      chanAxisLen out p = chanAxisLen img p := by
  intro out h
  unfold withLayout at h
  cases hb : body (toCanon img p) with
  | error e => rw [hb] at h; exact Except.noConfusion h
  | ok w =>
    rw [hb] at h
    simp only [Except.map] at h
    injection h with h2
    rw [← h2, chanAxisLen_fromCanon, hbody _ _ hb, chanAxisLen_toCanon]

/-- The canonical resize body only succeeds when the target channel extent
matches the source channel extent, and then its output carries it. -/
theorem resizeCanon_chan (c : Image) (s : Nat × Nat × Nat) (order : Nat)
    (aa : Bool) (w : Image) (h : resizeCanon c s order aa = .ok w) :
    w.d2 = c.d2 := by
  unfold resizeCanon at h
  split at h
  case isTrue hc =>
    injection h with h2
    rw [← h2]
    exact hc.symm
  case isFalse hc => exact Except.noConfusion h

/-- resize preserves the channel extent at the caller layout whenever it
returns an image. -/
theorem resize_chan (img : Image) (size : Size) (order : Nat) (aa : Bool)
    (p : ChannelPos) : ∀ out, resize img size order aa p = .ok out →
      chanAxisLen out p = chanAxisLen img p := by
  refine withLayout_chan _ img p ?_
  intro c w h
  cases size with
  | int n => exact resizeCanon_chan c _ order aa w h
  | tup l =>
    rcases l with _ | ⟨a, _ | ⟨b, _ | ⟨ch, _ | ⟨d, rest⟩⟩⟩⟩
    · exact Except.noConfusion h
    · exact Except.noConfusion h
    · exact Except.noConfusion h
    · exact resizeCanon_chan c _ order aa w h
    · exact Except.noConfusion h
  | lst l => exact Except.noConfusion h
  | arr l => exact Except.noConfusion h

/-- crop at the canonical layout keeps the channel extent. -/
theorem crop_last_chan (c : Image) (tl : Nat × Nat) (height width : Nat)
    (z : Image) (h : crop c tl height width .last = .ok z) : z.d2 = c.d2 := by
  simp only [crop, withLayout, toCanon_last] at h
  split at h
  · exact Except.noConfusion h
  · simp only [Except.map, fromCanon_last] at h
    injection h with h2
    rw [← h2]

/-- crop at the canonical layout on an in-bounds box returns exactly the
sub-array starting at the top-left corner. -/
theorem crop_last_ok (c : Image) (tl : Nat × Nat) (height width : Nat)
    (hh : tl.1 + height ≤ c.d0) (hw : tl.2 + width ≤ c.d1) :
    crop c tl height width .last =
      .ok { d0 := height, d1 := width, d2 := c.d2,
            data := fun i j k => c.data (tl.1 + i) (tl.2 + j) k } := by
  simp only [crop, withLayout, toCanon_last]
  rw [if_neg (by omega)]
  rfl

/-- A sandwiched fallible operation at the canonical layout is its body. -/
theorem withLayout_last (body : Image → Except PyErr Image) (x : Image) :
    withLayout .last body x = body x := by
  unfold withLayout
  exact map_fromCanon_last (body x)

/-- The spatial extents of a restored image at the caller layout are the
first two canonical extents. -/
@[simp] theorem spatialDims_fromCanon (w : Image) (p : ChannelPos) :
    spatialDims (fromCanon w p) p = (w.d0, w.d1) := by
  cases p <;> rfl

/-- The canonical resize body on a target shape carrying the source channel
extent succeeds, with the target extents realised exactly. -/
theorem resizeCanon_ok (c : Image) (s0 s1 order : Nat) (aa : Bool) :
    ∃ w, resizeCanon c (s0, s1, c.d2) order aa = .ok w ∧
      w.d0 = s0 ∧ w.d1 = s1 ∧ w.d2 = c.d2 := by
  have hcond : c.d2 = ((s0, s1, c.d2) : Nat × Nat × Nat).2.2 := rfl
  unfold resizeCanon
  rw [if_pos hcond]
  exact ⟨_, rfl, rfl, rfl, rfl⟩

/-- resize at channel-first is the channels-last resize of the moved image,
moved back. -/
theorem resize_first (img : Image) (s : Size) (order : Nat) (aa : Bool) :
    resize img s order aa .first =
      Except.map moveToFirst (resize (moveToLast img) s order aa .last) :=
  withLayout_first _ img

/-! The claim theorems. -/

/-- C3: the claim says rescale computes round(scale * spatial_shape) and
returns the result of resize; on the code this is false for every scale the
docstring accepts (a float or a (y, x) tuple or list of factors), because
line 121 evaluates `scale * input_shape` where input_shape is a Python tuple
of ints: multiplying a tuple by a float, a tuple or a list raises TypeError
before any size is computed, so rescale never reaches resize. This theorem
evaluates the embedded code on every such input. -/
theorem rescale_always_raises (img : Image) (q : ℚ) (l1 l2 : List ℚ)
    (order : Nat) (aa : Bool) (p : ChannelPos) :
    rescale img (.flt q) order aa p = .error .typeError ∧
    rescale img (.tup l1) order aa p = .error .typeError ∧
    rescale img (.lst l2) order aa p = .error .typeError := by
  refine ⟨?_, ?_, ?_⟩ <;> cases p <;> rfl

/-- C4: crop raises its bounds error (an IndexError in the source) before
any data access whenever the requested box extends past the spatial extent
of the image, at either layout; the result is the error, never a clamped
image. -/
theorem crop_bounds_error (img : Image) (tl : Nat × Nat) (height width : Nat)
    (p : ChannelPos)
    (h : (spatialDims img p).1 < tl.1 + height ∨
         (spatialDims img p).2 < tl.2 + width) :
    crop img tl height width p = .error .indexError := by
  cases p
  case first =>
    simp only [crop, withLayout, toCanon_first]
    simp only [spatialDims] at h
    rw [if_pos (by simp only [moveToLast]; omega)]
    rfl
  case last =>
    simp only [crop, withLayout, toCanon_last]
    simp only [spatialDims] at h
    rw [if_pos (by omega)]
    rfl

/-- C4 witness: crop with tl=(8,8), height=5, width=5 on the 3-channel
10 by 10 channel-first test image raises (8 + 5 = 13 > 10). -/
theorem crop_bounds_error_witness :
    crop testImg (8, 8) 5 5 ChannelPos.first = .error .indexError :=
  crop_bounds_error testImg (8, 8) 5 5 ChannelPos.first (by decide)

/-- C5: for a requested box entirely inside the spatial extent, crop returns
exactly the sub-array [top : top + height, left : left + width] of the
canonical layout, restored to the caller layout: at channel-first this is
img[:, t : t + height, l : l + width] and at channels-last it is
img[t : t + height, l : l + width]. -/
theorem crop_in_bounds_value (img : Image) (t l height width : Nat) :
    (t + height ≤ img.d1 → l + width ≤ img.d2 →
      crop img (t, l) height width ChannelPos.first =
        .ok { d0 := img.d0, d1 := height, d2 := width,
              data := fun ch i j => img.data ch (t + i) (l + j) }) ∧
    (t + height ≤ img.d0 → l + width ≤ img.d1 →
      crop img (t, l) height width ChannelPos.last =
        .ok { d0 := height, d1 := width, d2 := img.d2,
              data := fun i j k => img.data (t + i) (l + j) k }) := by
  constructor
  · intro hh hw
    simp only [crop, withLayout, toCanon_first]
    rw [if_neg (by simp only [moveToLast]; omega)]
    rfl
  · intro hh hw
    simp only [crop, withLayout, toCanon_last]
    rw [if_neg (by omega)]
    rfl

/-- C5 witness: on the 3-channel 10 by 10 channel-first test image,
crop with tl=(2,2), height=4, width=4 is exactly img[:, 2:6, 2:6]. -/
theorem crop_in_bounds_value_witness :
    crop testImg (2, 2) 4 4 ChannelPos.first =
      .ok { d0 := testImg.d0, d1 := 4, d2 := 4,
            data := fun ch i j => testImg.data ch (2 + i) (2 + j) } :=
  (crop_in_bounds_value testImg 2 2 4 4).1 (by decide) (by decide)

/-- C8: for broadcastable mean and std (scalar, or a vector matching the
extent of the physical last axis, along which numpy broadcasts), normalise
returns the image of the same shape whose every sample is
(img - mean) / std; and with mean=0 and std=1 it is the identity on the
image. -/
theorem normalise_elementwise (img : Image) (mean std : Brd)
    (hm : mean.bcastOK img.d2 = true) (hs : std.bcastOK img.d2 = true) :
    (∃ out, normalise img mean std = .ok out ∧
      out.d0 = img.d0 ∧ out.d1 = img.d1 ∧ out.d2 = img.d2 ∧
      ∀ i j k, out.data i j k = (img.data i j k - mean.get k) / std.get k) ∧
    normalise img (.scalar 0) (.scalar 1) = .ok img := by
  constructor
  · refine ⟨{ img with data := fun i j k =>
        (img.data i j k - mean.get k) / std.get k }, ?_, rfl, rfl, rfl,
      fun i j k => rfl⟩
    unfold normalise
    rw [if_pos (by simp [hm, hs])]
  · unfold normalise
    have hcond : ((Brd.scalar (0 : ℚ)).bcastOK img.d2 &&
        (Brd.scalar (1 : ℚ)).bcastOK img.d2) = true := rfl
    rw [if_pos hcond]
    congr 1
    apply Image.ext
    · rfl
    · rfl
    · rfl
    funext i j k
    show (img.data i j k - 0) / 1 = img.data i j k
    rw [sub_zero, div_one]

/-- C8 witness: elementwise normalisation of the test image with a
per-channel 10-vector mean and a scalar std, and the identity at (0, 1). -/
theorem normalise_elementwise_witness :
    (∃ out,
      normalise testImg (.vec [0, 1, 2, 3, 4, 5, 6, 7, 8, 9]) (.scalar 2) = .ok out ∧
      out.d0 = testImg.d0 ∧ out.d1 = testImg.d1 ∧ out.d2 = testImg.d2 ∧
      ∀ i j k, out.data i j k =
        (testImg.data i j k - (Brd.vec [0, 1, 2, 3, 4, 5, 6, 7, 8, 9]).get k) /
          (Brd.scalar 2).get k) ∧
    normalise testImg (.scalar 0) (.scalar 1) = .ok testImg :=
  normalise_elementwise testImg (.vec [0, 1, 2, 3, 4, 5, 6, 7, 8, 9])
    (.scalar 2) (by decide) (by decide)

/-- C9: hflip and vflip are involutions at either layout: flipping twice
restores the image (same shape, same in-range samples). -/
theorem flips_involution (img : Image) (p : ChannelPos) :
    imEq (hflip (hflip img p) p) img ∧ imEq (vflip (vflip img p) p) img := by
  constructor
  · cases p
    case first =>
      refine ⟨rfl, rfl, rfl, fun i j k hi hj hk => ?_⟩
      have hk2 : k < img.d2 := hk
      have e : img.d2 - 1 - (img.d2 - 1 - k) = k := by omega
      calc (hflip (hflip img .first) .first).data i j k
          = img.data i j (img.d2 - 1 - (img.d2 - 1 - k)) := rfl
        _ = img.data i j k := by rw [e]
    case last =>
      refine ⟨rfl, rfl, rfl, fun i j k hi hj hk => ?_⟩
      have hj2 : j < img.d1 := hj
      have e : img.d1 - 1 - (img.d1 - 1 - j) = j := by omega
      calc (hflip (hflip img .last) .last).data i j k
          = img.data i (img.d1 - 1 - (img.d1 - 1 - j)) k := rfl
        _ = img.data i j k := by rw [e]
  · cases p
    case first =>
      refine ⟨rfl, rfl, rfl, fun i j k hi hj hk => ?_⟩
      have hj2 : j < img.d1 := hj
      have e : img.d1 - 1 - (img.d1 - 1 - j) = j := by omega
      calc (vflip (vflip img .first) .first).data i j k
          = img.data i (img.d1 - 1 - (img.d1 - 1 - j)) k := rfl
        _ = img.data i j k := by rw [e]
    case last =>
      refine ⟨rfl, rfl, rfl, fun i j k hi hj hk => ?_⟩
      have hi2 : i < img.d0 := hi
      have e : img.d0 - 1 - (img.d0 - 1 - i) = i := by omega
      calc (vflip (vflip img .last) .last).data i j k
          = img.data (img.d0 - 1 - (img.d0 - 1 - i)) j k := rfl
        _ = img.data i j k := by rw [e]

/-- C9 witness: the double flips restore the concrete test image. -/
theorem flips_involution_witness :
    imEq (hflip (hflip testImg ChannelPos.first) ChannelPos.first) testImg ∧
    imEq (vflip (vflip testImg ChannelPos.first) ChannelPos.first) testImg :=
  flips_involution testImg ChannelPos.first

/-- C10: erase overwrites exactly the requested box with the constant value
and leaves every other in-range sample unchanged, keeping the shape; the box
is not bounds-checked, so the statement holds for every box, with a box
reaching past the extent silently clipped by slice semantics (the in-range
guards below) instead of raising — erase cannot raise at all, its result
type is an image, and the returned image holds exactly the mutated data the
in-place Python contract promises. -/
theorem erase_overwrites_box (img : Image) (t l height width : Nat) (v : ℚ)
    (p : ChannelPos) :
    (toCanon (erase img (t, l) height width v p) p).d0 = (toCanon img p).d0 ∧
    (toCanon (erase img (t, l) height width v p) p).d1 = (toCanon img p).d1 ∧
    (toCanon (erase img (t, l) height width v p) p).d2 = (toCanon img p).d2 ∧
    ∀ i j k, i < (toCanon img p).d0 → j < (toCanon img p).d1 →
      k < (toCanon img p).d2 →
      (toCanon (erase img (t, l) height width v p) p).data i j k =
        if t ≤ i ∧ i < t + height ∧ l ≤ j ∧ j < l + width then v
        else (toCanon img p).data i j k := by
  cases p
  case first =>
    refine ⟨rfl, rfl, rfl, fun i j k hi hj hk => ?_⟩
    show (if t ≤ i ∧ i < t + height ∧ i < (moveToLast img).d0 ∧
            l ≤ j ∧ j < l + width ∧ j < (moveToLast img).d1 then v
          else (moveToLast img).data i j k) = _
    by_cases hbox : t ≤ i ∧ i < t + height ∧ l ≤ j ∧ j < l + width
    · rw [if_pos ⟨hbox.1, hbox.2.1, hi, hbox.2.2.1, hbox.2.2.2, hj⟩, if_pos hbox]
    · rw [if_neg (by tauto), if_neg hbox]
      rfl
  case last =>
    refine ⟨rfl, rfl, rfl, fun i j k hi hj hk => ?_⟩
    show (if t ≤ i ∧ i < t + height ∧ i < img.d0 ∧
            l ≤ j ∧ j < l + width ∧ j < img.d1 then v
          else img.data i j k) = _
    by_cases hbox : t ≤ i ∧ i < t + height ∧ l ≤ j ∧ j < l + width
    · rw [if_pos ⟨hbox.1, hbox.2.1, hi, hbox.2.2.1, hbox.2.2.2, hj⟩, if_pos hbox]
    · rw [if_neg (by tauto), if_neg hbox]
      rfl

/-- C10 witness: a sample inside the (out-of-bounds) erased box of the test
image takes the erase value, exercising the silent clipping. -/
theorem erase_overwrites_box_witness :
    (toCanon (erase testImg (8, 8) 5 5 7 ChannelPos.first) ChannelPos.first).data 9 9 0 =
      if 8 ≤ 9 ∧ 9 < 8 + 5 ∧ 8 ≤ 9 ∧ 9 < 8 + 5 then (7 : ℚ)
      else (toCanon testImg ChannelPos.first).data 9 9 0 :=
  (erase_overwrites_box testImg 8 8 5 5 7 ChannelPos.first).2.2.2 9 9 0
    (by decide) (by decide) (by decide)

/-- C2: what the size dispatch of resize actually does. A scalar int size
gives a square output (both spatial extents equal to it, channel count
unchanged) and a 3-element tuple matching the channel count is used
verbatim, as the claim says; but a 2-element size raises AttributeError
(the code reads img.output_shape, which numpy arrays lack) instead of being
expanded with the channel count, and a list of any length raises NameError
(the guard `type(size) == (tuple or list)` only ever compares with tuple, so
no branch assigns output_shape). The claim is therefore false for 2-element
sizes and for lists. -/
theorem resize_size_dispatch (img : Image) (n a b : Nat) (l : List Nat)
    (order : Nat) (aa : Bool) (p : ChannelPos) :
    (∃ out, resize img (.int n) order aa p = .ok out ∧
      spatialDims out p = (n, n) ∧ chanAxisLen out p = chanAxisLen img p) ∧
    resize img (.tup [a, b]) order aa p = .error .attributeError ∧
    resize img (.lst l) order aa p = .error .nameError ∧
    (∃ out, resize img (.tup [a, b, chanAxisLen img p]) order aa p = .ok out ∧
      spatialDims out p = (a, b) ∧ chanAxisLen out p = chanAxisLen img p) := by
  refine ⟨?_, ?_, ?_, ?_⟩
  · obtain ⟨w, hw, h0, h1, h2⟩ := resizeCanon_ok (toCanon img p) n n order aa
    refine ⟨fromCanon w p, ?_, ?_, ?_⟩
    · have hbody : resize img (.int n) order aa p =
          Except.map (fun o => fromCanon o p)
            (resizeCanon (toCanon img p) (n, n, (toCanon img p).d2) order aa) := rfl
      rw [hbody, hw]
      rfl
    · rw [spatialDims_fromCanon, h0, h1]
    · rw [chanAxisLen_fromCanon, h2, chanAxisLen_toCanon]
  · rfl
  · rfl
  · obtain ⟨w, hw, h0, h1, h2⟩ := resizeCanon_ok (toCanon img p) a b order aa
    refine ⟨fromCanon w p, ?_, ?_, ?_⟩
    · have hbody : resize img (.tup [a, b, chanAxisLen img p]) order aa p =
          Except.map (fun o => fromCanon o p)
            (resizeCanon (toCanon img p) (a, b, chanAxisLen img p) order aa) := rfl
      rw [hbody, ← chanAxisLen_toCanon, hw]
      rfl
    · rw [spatialDims_fromCanon, h0, h1]
    · rw [chanAxisLen_fromCanon, h2, chanAxisLen_toCanon]

/-- C6: for an in-bounds box, zoom equals crop followed by a resize of the
cropped result back to the full extents of the original image, with default
resize parameters (order 3, no anti-aliasing) and the same channel_pos. The
target size is the 3-tuple of the original canonical extents — exactly the
size=img.shape tuple zoom itself passes — which makes the resize output
carry the full original shape at the caller layout. -/
theorem zoom_eq_crop_resize (img : Image) (tl : Nat × Nat)
    (height width : Nat) (p : ChannelPos)
    (hh : tl.1 + height ≤ (toCanon img p).d0)
    (hw : tl.2 + width ≤ (toCanon img p).d1) :
    ∃ cr, crop img tl height width p = .ok cr ∧
      zoom img tl height width p 3 false =
        resize cr (.tup [(toCanon img p).d0, (toCanon img p).d1,
          (toCanon img p).d2]) 3 false p := by
  have hcl := crop_last_ok (toCanon img p) tl height width hh hw
  cases p
  case first =>
    simp only [toCanon_first] at hcl hh hw ⊢
    obtain ⟨cr0, hCR⟩ : ∃ x,
        crop (moveToLast img) tl height width ChannelPos.last = .ok x :=
      ⟨_, hcl⟩
    have h1 : crop img tl height width ChannelPos.first =
        Except.map moveToFirst
          (crop (moveToLast img) tl height width ChannelPos.last) :=
      withLayout_first _ img
    refine ⟨moveToFirst cr0, ?_, ?_⟩
    · rw [h1, hCR]
      rfl
    · have h2 : zoom img tl height width ChannelPos.first 3 false =
          Except.map moveToFirst
            (match crop (moveToLast img) tl height width ChannelPos.last with
             | .error e => .error e
             | .ok zoomed => resize zoomed
                 (.tup [(moveToLast img).d0, (moveToLast img).d1,
                   (moveToLast img).d2]) 3 false ChannelPos.last) := by
        have h3 := withLayout_first (fun c =>
          match crop c tl height width ChannelPos.last with
          | .error e => .error e
          | .ok zoomed => resize zoomed (.tup [c.d0, c.d1, c.d2]) 3 false
              ChannelPos.last) img
        exact h3.trans (by rw [withLayout_last])
      rw [h2, hCR]
      have h4 := resize_first (moveToFirst cr0)
        (.tup [(moveToLast img).d0, (moveToLast img).d1, (moveToLast img).d2])
        3 false
      rw [h4, moveToLast_moveToFirst_simp]
  case last =>
    simp only [toCanon_last] at hcl hh hw ⊢
    obtain ⟨cr0, hCR⟩ : ∃ x,
        crop img tl height width ChannelPos.last = .ok x :=
      ⟨_, hcl⟩
    refine ⟨cr0, hCR, ?_⟩
    have h2 : zoom img tl height width ChannelPos.last 3 false =
        (match crop img tl height width ChannelPos.last with
         | .error e => .error e
         | .ok zoomed => resize zoomed (.tup [img.d0, img.d1, img.d2]) 3 false
             ChannelPos.last) :=
      withLayout_last _ img
    rw [h2, hCR]

/-- C6 witness: the equivalence at the concrete channel-first test image and
the in-bounds box with corner (2,2) and extents 4 by 4. -/
theorem zoom_eq_crop_resize_witness :
    ∃ cr, crop testImg (2, 2) 4 4 ChannelPos.first = .ok cr ∧
      zoom testImg (2, 2) 4 4 ChannelPos.first 3 false =
        resize cr (.tup [(toCanon testImg ChannelPos.first).d0,
          (toCanon testImg ChannelPos.first).d1,
          (toCanon testImg ChannelPos.first).d2]) 3 false ChannelPos.first :=
  zoom_eq_crop_resize testImg (2, 2) 4 4 ChannelPos.first (by decide) (by decide)

/-- C7: stretch equals shear followed by a resize of the sheared result back
to the full extents of the original image, with the same interpolation order
and anti-aliasing parameters and the same channel_pos, exactly; as with C6
the target size is the 3-tuple of the original canonical extents, the
size=img.shape tuple stretch itself passes. -/
theorem stretch_eq_shear_resize (img : Image) (angle : ℚ) (order : Nat)
    (aa : Bool) (p : ChannelPos) :
    stretch img angle order aa p =
      resize (shear img angle order p)
        (.tup [(toCanon img p).d0, (toCanon img p).d1, (toCanon img p).d2])
        order aa p := by
  cases p
  case first =>
    simp only [toCanon_first]
    have h1 : stretch img angle order aa ChannelPos.first =
        Except.map moveToFirst
          (resize (shear (moveToLast img) angle order ChannelPos.last)
            (.tup [(moveToLast img).d0, (moveToLast img).d1,
              (moveToLast img).d2]) order aa ChannelPos.last) := by
      have h3 := withLayout_first (fun c =>
        resize (shear c angle order ChannelPos.last) (.tup [c.d0, c.d1, c.d2])
          order aa ChannelPos.last) img
      exact h3.trans (by rw [withLayout_last])
    rw [h1, resize_first]
    simp only [shear, withLayoutP, toCanon_first, toCanon_last, fromCanon_first,
      fromCanon_last, moveToLast_moveToFirst_simp]
  case last =>
    simp only [toCanon_last]
    have h1 : stretch img angle order aa ChannelPos.last =
        resize (shear img angle order ChannelPos.last)
          (.tup [img.d0, img.d1, img.d2]) order aa ChannelPos.last :=
      withLayout_last _ img
    rw [h1]

/-- A sandwiched infallible operation whose body preserves the canonical
channel extent preserves the channel extent the caller sees. -/
theorem chanAxisLen_withLayoutP (body : Image → Image) (img : Image)
    (p : ChannelPos) (hbody : ∀ c, (body c).d2 = c.d2) :
    chanAxisLen (withLayoutP p body img) p = chanAxisLen img p := by
  unfold withLayoutP
  rw [chanAxisLen_fromCanon, hbody]
  exact chanAxisLen_toCanon img p

/-- C1: every public operation preserves the physical axis order it was
given. Whenever an invocation at a channel layout returns an image, the
channel axis of the result sits at the requested position with the channel
extent of the input (first conjunct); and for every operation that takes
channel_pos (all but the purely elementwise normalise, which has none), the
channel-first invocation is exactly the canonical channels-last invocation
with the channel axis moved back to the front (second conjunct), so no
operation leaves an image in canonical layout when channel-first was
requested. -/
theorem layout_preserved (o : Op) (img : Image) (p : ChannelPos) :
    (∀ out, applyOp o img p = .ok out →
      chanAxisLen out p = chanAxisLen img p) ∧
    (o.takesChannelPos = true →
      applyOp o img ChannelPos.first =
        Except.map moveToFirst (applyOp o (moveToLast img) ChannelPos.last)) := by
  constructor
  · intro out h
    cases o with
    | normaliseOp mean std =>
      replace h : normalise img mean std = Except.ok out := h
      unfold normalise at h
      split at h
      · injection h with h2
        rw [← h2]
        cases p <;> rfl
      · exact Except.noConfusion h
    | resizeOp size order aa => exact resize_chan img size order aa p out h
    | rescaleOp scale order aa =>
      cases scale <;> cases p <;> exact Except.noConfusion h
    | cropOp tl height width =>
      refine withLayout_chan (fun c =>
        if tl.1 + height > c.d0 ∨ tl.2 + width > c.d1 then .error .indexError
        else .ok { d0 := height, d1 := width, d2 := c.d2,
                   data := fun i j k => c.data (tl.1 + i) (tl.2 + j) k })
        img p ?_ out h
      intro c w hw
      simp only [] at hw
      split at hw
      · exact Except.noConfusion hw
      · injection hw with h2
        rw [← h2]
    | hflipOp =>
      injection h with h2
      rw [← h2]
      exact chanAxisLen_withLayoutP _ img p (fun c => rfl)
    | vflipOp =>
      injection h with h2
      rw [← h2]
      exact chanAxisLen_withLayoutP _ img p (fun c => rfl)
    | rotateOp angle reshape order =>
      injection h with h2
      rw [← h2]
      exact chanAxisLen_withLayoutP _ img p (fun c => rfl)
    | eraseOp tl height width val =>
      injection h with h2
      rw [← h2]
      exact chanAxisLen_withLayoutP _ img p (fun c => rfl)
    | shearOp angle order =>
      injection h with h2
      rw [← h2]
      exact chanAxisLen_withLayoutP _ img p (fun c => rfl)
    | affineOp scales rot shr translate order =>
      injection h with h2
      rw [← h2]
      exact chanAxisLen_withLayoutP _ img p (fun c => rfl)
    | zoomOp tl height width order aa =>
      refine withLayout_chan (fun c =>
        match crop c tl height width ChannelPos.last with
        | .error e => .error e
        | .ok zoomed => resize zoomed (.tup [c.d0, c.d1, c.d2]) order aa
            ChannelPos.last) img p ?_ out h
      intro c w hw
      simp only [] at hw
      cases hcz : crop c tl height width ChannelPos.last with
      | error e => rw [hcz] at hw; exact Except.noConfusion hw
      | ok z =>
        rw [hcz] at hw
        have hz := crop_last_chan c tl height width z hcz
        have hr := resize_chan z (.tup [c.d0, c.d1, c.d2]) order aa
          ChannelPos.last w hw
        exact hr.trans hz
    | stretchOp angle order aa =>
      refine withLayout_chan (fun c =>
        resize (shear c angle order ChannelPos.last) (.tup [c.d0, c.d1, c.d2])
          order aa ChannelPos.last) img p ?_ out h
      intro c w hw
      exact resize_chan (shear c angle order ChannelPos.last)
        (.tup [c.d0, c.d1, c.d2]) order aa ChannelPos.last w hw
  · intro ht
    cases o with
    | normaliseOp mean std => exact Bool.noConfusion ht
    | rescaleOp scale order aa => cases scale <;> rfl
    | resizeOp size order aa =>
      exact withLayout_first (fun c =>
        match sizeDispatch c size with
        | .error e => .error e
        | .ok s => resizeCanon c s order aa) img
    | cropOp tl height width =>
      exact withLayout_first (fun c =>
        if tl.1 + height > c.d0 ∨ tl.2 + width > c.d1 then .error .indexError
        else .ok { d0 := height, d1 := width, d2 := c.d2,
                   data := fun i j k => c.data (tl.1 + i) (tl.2 + j) k }) img
    | zoomOp tl height width order aa =>
      exact withLayout_first (fun c =>
        match crop c tl height width ChannelPos.last with
        | .error e => .error e
        | .ok zoomed => resize zoomed (.tup [c.d0, c.d1, c.d2]) order aa
            ChannelPos.last) img
    | stretchOp angle order aa =>
      exact withLayout_first (fun c =>
        resize (shear c angle order ChannelPos.last) (.tup [c.d0, c.d1, c.d2])
          order aa ChannelPos.last) img
    | hflipOp => rfl
    | vflipOp => rfl
    | rotateOp angle reshape order => rfl
    | eraseOp tl height width val => rfl
    | shearOp angle order => rfl
    | affineOp scales rot shr translate order => rfl

/-- C1 witness: the invariant applied to the erase operation on the
channel-first test image. -/
theorem layout_preserved_witness :
    chanAxisLen (erase testImg (0, 0) 2 2 5 ChannelPos.first) ChannelPos.first =
      chanAxisLen testImg ChannelPos.first ∧
    applyOp (Op.eraseOp (0, 0) 2 2 5) testImg ChannelPos.first =
      Except.map moveToFirst
        (applyOp (Op.eraseOp (0, 0) 2 2 5) (moveToLast testImg)
          ChannelPos.last) :=
  ⟨(layout_preserved (Op.eraseOp (0, 0) 2 2 5) testImg ChannelPos.first).1
      (erase testImg (0, 0) 2 2 5 ChannelPos.first) rfl,
    (layout_preserved (Op.eraseOp (0, 0) 2 2 5) testImg ChannelPos.first).2 rfl⟩

end Hypia
